import Mathlib

/-!
Shallow embedding of the ride-assignment system (`src/optimizer.js`,
`src/utils.js`, `src/distanceService.js`, plus the test-data generator's
time formatter).  JavaScript strings handled character-by-character are
modelled as `List Char`; opaque identifiers as `String`; JavaScript
numbers appearing in costs and travel times as `ℚ`, extended with the
`Infinity` sentinel as `WithTop ℚ` (`⊤` plays `Infinity`).  Geographic
coordinates are opaque to all embedded code (only ever fed to lookup
functions), so they are modelled by an abstract stand-in type.
-/

namespace AssignRides

/-- Stand-in for a `[lat, lon]` coordinate pair; the embedded code treats
coordinates opaquely, passing them to lookup functions. -/
abbrev Coord := ℕ

/-- Extended rational: a JavaScript number where `Infinity` can occur. -/
abbrev QI := WithTop ℚ

/-- A JavaScript string processed character by character. -/
abbrev JStr := List Char

/-! ## Time codec (`src/utils.js`, `parseTimeToMinutes`, lines 103-125) -/

/-- `s.split(":")` from JavaScript: split on every colon, keeping empty
fields (so `"".split(":") = [""]`, `"12:".split(":") = ["12",""]`). -/
def splitOnColon : JStr → List JStr
  | [] => [[]]
  | c :: rest =>
      if c = ':' then [] :: splitOnColon rest
      else
        match splitOnColon rest with
        | [] => [[c]]
        | f :: fs => (c :: f) :: fs

/-- Value of a decimal digit string, most significant digit first. -/
def digitsToNat (s : JStr) : ℕ := s.foldl (fun acc c => 10 * acc + (c.toNat - 48)) 0

/-- `Number(x)` followed by the `Number.isInteger` / nonnegativity checks of
`parseTimeToMinutes`, on the fragment of inputs this development touches:
`undefined` (a missing destructured field) gives `NaN` hence `none`; the
empty string gives `0` (a JavaScript quirk); an unsigned decimal digit
string gives its value; every other string in the fragment (letters,
signs, fractional forms) fails the integer-in-range test exactly as the
JavaScript check does.  Exotic coercions (whitespace padding, hex,
exponent notation) are outside the modelled fragment. -/
def jsNumberNat : Option JStr → Option ℕ
  | none => none
  | some [] => some 0
  | some (c :: cs) =>
      if (c :: cs).all Char.isDigit then some (digitsToNat (c :: cs)) else none

/-- `parseTimeToMinutes` (`src/utils.js` lines 103-125): split on `":"`,
destructure the first two fields (later fields are silently dropped by the
destructuring), convert with `Number`, validate hour `0-23` and minute
`0-59`, and return `hours * 60 + minutes`; `none` models the thrown
`Invalid time string` error. -/
def parseTimeToMinutes (timeStr : JStr) : Option ℕ :=
  let fields := splitOnColon timeStr
  match jsNumberNat fields[0]?, jsNumberNat fields[1]? with
  | some hours, some minutes =>
      if hours ≤ 23 ∧ minutes ≤ 59 then some (hours * 60 + minutes) else none
  | _, _ => none

/-! ## Time formatter (`generateTestData.js`, `pad` / `randomTimeWindow`) -/

/-- `pad` from the generator: `n.toString().padStart(2, "0")`. -/
def padTwo (n : ℕ) : JStr :=
  let s := Nat.toDigits 10 n
  List.replicate (2 - s.length) '0' ++ s

/-- The `"HH:mm"` encoding used by `randomTimeWindow`:
`pad(m / 60) + ":" + pad(m % 60)`. -/
def fmtTime (m : ℕ) : JStr := padTwo (m / 60) ++ ':' :: padTwo (m % 60)

/-! ## Distance service (`src/distanceService.js`)

The OSRM backend is abstracted as a function from a coordinate pair to an
optional duration in seconds (`none` models a transport/backend failure).
Each service operation is instrumented with the number of backend (HTTP)
calls it issues, as its second component. -/

/-- Abstract routing backend: seconds of driving time, or failure. -/
abbrev Backend := Coord → Coord → Option ℚ

/-- Abstract air-distance oracle standing in for the haversine computation
`getAirDistanceKm` (pure real-number trigonometry, opaque to the logic
verified here). -/
abbrev AirFn := Coord → Coord → ℚ

/-- `rawTravelTime` (lines 40-56): always issues one OSRM call; on success
returns `Math.ceil(secs / 60)` clamped below by `1`; on failure returns
`Infinity`. -/
def rawTravelTime (backend : Backend) (a b : Coord) : QI × ℕ :=
  (match backend a b with
   | none => ⊤
   | some secs => ((max (⌈secs / 60⌉ : ℤ) 1 : ℚ) : QI), 1)

/-- `filteredTravelTime` (lines 67-77): if the air distance exceeds the
threshold, short-circuit to `Infinity` with zero backend calls; otherwise
defer to `rawTravelTime`. -/
def filteredTravelTime (air : AirFn) (backend : Backend) (maxAirDistanceKm : ℚ)
    (a b : Coord) : QI × ℕ :=
  if maxAirDistanceKm < air a b then (⊤, 0)
  else rawTravelTime backend a b

/-- The relevant configuration fields of `src/config.js`. -/
structure Config where
  useAirDistanceFilter : Bool
  maxAirDistanceKm : ℚ

/-- `getTravelTimeInMinutes` (lines 87-94): choose the filtered or raw
strategy according to `config.useAirDistanceFilter`. -/
def getTravelTimeInMinutes (cfg : Config) (air : AirFn) (backend : Backend)
    (a b : Coord) : QI × ℕ :=
  if cfg.useAirDistanceFilter then
    filteredTravelTime air backend cfg.maxAirDistanceKm a b
  else rawTravelTime backend a b

/-! ## Data model (`src/types.js`)

Only the fields the embedded code reads are modelled; identifiers and the
activity status are opaque `String`s, seat counts are integers, monetary
amounts rationals. -/

/-- A driver record. -/
structure Driver where
  driverId : String
  status : String
  numberOfSeats : ℤ
  fuelCost : ℚ
  city_coords : Coord

/-- A ride record (`_id` is the identifier key used in the output). -/
structure Ride where
  _id : String
  startTime : JStr
  endTime : JStr
  startPoint_coords : Coord
  endPoint_coords : Coord
  numberOfSeats : ℤ

/-- The travel-time lookup signature the optimizer consumes: minutes of
driving, `⊤` playing the `Infinity` unreachable sentinel. -/
abbrev TravelFn := Coord → Coord → QI

/-- The road-distance lookup (`getTravelDistanceInKm`) signature: km of
driving, `⊤` playing the `Infinity` failure sentinel. -/
abbrev DistFn := Coord → Coord → QI

/-! ## Feasibility (`src/utils.js`, `canDriverPerformRide`, lines 140-176)

`tt` is the module-level `getTravelTimeInMinutes` the function closes
over.  A `none` result models a propagated exception (a malformed time
string). -/

/-- `canDriverPerformRide`: active status, seat capacity, then the
arrival-time check from the previous ride's end point (or the driver's
home when there is none). -/
def canDriverPerformRide (tt : TravelFn) (driver : Driver) (ride : Ride)
    (previousRide : Option Ride) : Option Bool :=
  if driver.status ≠ "active" then some false
  else if driver.numberOfSeats < ride.numberOfSeats then some false
  else do
    let rideStart ← parseTimeToMinutes ride.startTime
    match previousRide with
    | some prev => do
        let previousEnd ← parseTimeToMinutes prev.endTime
        let travelTime := tt prev.endPoint_coords ride.startPoint_coords
        if ((rideStart : ℚ) : QI) < ((previousEnd : ℚ) : QI) + travelTime then pure false
        else pure true
    | none =>
        let travelTime := tt driver.city_coords ride.startPoint_coords
        if ((rideStart : ℚ) : QI) < travelTime then pure false
        else pure true

/-- The JavaScript call sites in `findBestDriverForRide` pass a fourth
argument (the travel-time override); `canDriverPerformRide` declares only
three parameters, so JavaScript discards it.  This wrapper mirrors the
four-argument call. -/
def canDriverPerformRide4 (tt : TravelFn) (driver : Driver) (ride : Ride)
    (previousRide : Option Ride) (_ignored : TravelFn) : Option Bool :=
  canDriverPerformRide tt driver ride previousRide

/-! ## Optimizer (`src/optimizer.js`, second draft, lines 163-374) -/

/-- Per-driver schedule state (`initializeSchedules`, lines 209-220). -/
structure Schedule where
  rides : List Ride
  baseCost : QI
  penaltyCost : ℚ
  lastRide : Option Ride

/-- The schedules object: a string-keyed map with insertion-order
iteration, modelled as an association list keyed by `driverId`. -/
abbrev Schedules := List (String × Schedule)

/-- `initializeSchedules` (lines 209-220). -/
def initializeSchedules (drivers : List Driver) : Schedules :=
  drivers.map (fun driver =>
    (driver.driverId, { rides := [], baseCost := 0, penaltyCost := 0, lastRide := none }))

/-- `schedules[driverId]`: first entry with the key, `none` for
JavaScript's `undefined`. -/
def lookupSched : Schedules → String → Option Schedule
  | [], _ => none
  | (k, s) :: rest, id => if k = id then some s else lookupSched rest id

/-- In-place mutation of `schedules[driverId]`: rewrite the first entry
carrying the key (a JavaScript object holds one entry per key), leave the
map unchanged when the key is absent. -/
def updateSched (schedules : Schedules) (id : String) (f : Schedule → Schedule) : Schedules :=
  match schedules with
  | [] => []
  | (k, s) :: rest => if k = id then (k, f s) :: rest else (k, s) :: updateSched rest id f

/-- JavaScript truthiness of the `bestDriverId` value in
`if (bestDriverId)`: `null` and the empty string are falsy. -/
def jsTruthy : Option String → Bool
  | none => false
  | some s => s ≠ ""

/-- `computePenalty` (lines 363-365): `fairnessWeight * ((count + 1)^2 - 1)`. -/
def computePenalty (currentCount : ℕ) (fairnessWeight : ℚ) : ℚ :=
  fairnessWeight * (((currentCount : ℚ) + 1) ^ 2 - 1)

/-- `calculateRideCost` (lines 316-333).  `tt`/`dist` are the module-level
`getTravelTimeInMinutes`/`getTravelDistanceInKm`.  Arithmetic on `QI`
follows JavaScript: `Infinity` is absorbing for the sums and for the
positive scalings; the lone divergence is `0 * Infinity` (JavaScript
`NaN`, here `⊤`), which downstream behaves identically because both fail
every strict comparison in `findBestDriverForRide`.  `none` models a
propagated time-parse exception. -/
def calculateRideCost (tt : TravelFn) (dist : DistFn) (driver : Driver) (ride : Ride)
    (lastRide : Option Ride) : Option QI := do
  let fromCoords := match lastRide with
    | some lr => lr.endPoint_coords
    | none => driver.city_coords
  let emptyTime := tt fromCoords ride.startPoint_coords
  let emptyDistance := dist fromCoords ride.startPoint_coords
  let endT ← parseTimeToMinutes ride.endTime
  let startT ← parseTimeToMinutes ride.startTime
  let rideTime : ℚ := (endT : ℚ) - (startT : ℚ)
  let timeCost := (emptyTime + (rideTime : QI)).map (fun x => x / 60 * 30)
  let rideDistance := dist ride.startPoint_coords ride.endPoint_coords
  let fuelCost := (emptyDistance + rideDistance).map (fun x => driver.fuelCost * x)
  pure (timeCost + fuelCost)

/-- The options record destructured by `findBestDriverForRide`
(line 234). -/
structure FindOptions where
  fairnessMode : Bool
  fairnessWeight : ℚ
  getTravelTimeFn : TravelFn

/-- The scan state of `findBestDriverForRide`: `bestDriverId` starts
`null`, `bestAdjustedCost` starts `Infinity`, `bestBaseCost` starts `0`. -/
structure BestAcc where
  bestDriverId : Option String
  bestAdjustedCost : QI
  bestBaseCost : QI
deriving DecidableEq

/-- One iteration of the driver loop of `findBestDriverForRide`
(lines 239-257): look up the driver's schedule (an absent entry would make
the JavaScript property accesses throw, hence `none`), test feasibility
(passing the override as the discarded fourth argument), compute the base
cost, add the fairness penalty when enabled, and keep the driver on a
strictly lower adjusted cost. -/
def findStep (tt : TravelFn) (dist : DistFn) (schedules : Schedules) (ride : Ride)
    (opts : FindOptions) (acc : BestAcc) (driver : Driver) : Option BestAcc := do
  let sched ← lookupSched schedules driver.driverId
  let feasible ← canDriverPerformRide4 tt driver ride sched.lastRide opts.getTravelTimeFn
  if feasible then do
    let baseCost ← calculateRideCost tt dist driver ride sched.lastRide
    let penalty := if opts.fairnessMode then computePenalty sched.rides.length opts.fairnessWeight else 0
    let adjustedCost := baseCost + ((penalty : ℚ) : QI)
    if adjustedCost < acc.bestAdjustedCost then
      pure ⟨some driver.driverId, adjustedCost, baseCost⟩
    else pure acc
  else pure acc

/-- `findBestDriverForRide` (lines 233-260): fold the scan over the
drivers in their fixed iteration order. -/
def findBestDriverForRide (tt : TravelFn) (dist : DistFn) (drivers : List Driver)
    (schedules : Schedules) (ride : Ride) (opts : FindOptions) : Option BestAcc :=
  drivers.foldlM (findStep tt dist schedules ride opts) ⟨none, ⊤, 0⟩

/-- `assignRide` (lines 265-276): compute the penalty from the count
before the push, then append the ride and accumulate both totals. -/
def assignRide (schedules : Schedules) (driverId : String) (ride : Ride)
    (baseCost : QI) (fairnessMode : Bool) (fairnessWeight : ℚ) : Schedules :=
  updateSched schedules driverId (fun sched =>
    let penalty := if fairnessMode then computePenalty sched.rides.length fairnessWeight else 0
    { rides := sched.rides ++ [ride]
      baseCost := sched.baseCost + baseCost
      penaltyCost := sched.penaltyCost + penalty
      lastRide := some ride })

/-- `Math.round`: round half away from zero toward positive infinity. -/
def jsRound (q : ℚ) : ℤ := ⌊q + 1 / 2⌋

/-- The output structure of `buildAssignmentsAndCost` (lines 304-310).
The `fairness` statistics block (floating-point display statistics built
by `computeFairnessStats`, including a square root) is display-only and
not modelled. -/
structure AssignResult where
  assignments : List (String × List String)
  realTotalCost : WithTop ℤ
  totalPenalty : ℤ
  totalCost : WithTop ℤ
deriving DecidableEq

/-- The loop body of `buildAssignmentsAndCost` (lines 286-298): skip
drivers with no rides, collect `{driverId, rideIds}`, accumulate both
cost totals. -/
def buildStep (acc : List (String × List String) × QI × ℚ) (p : String × Schedule) :
    List (String × List String) × QI × ℚ :=
  if p.2.rides.length = 0 then acc
  else (acc.1 ++ [(p.1, p.2.rides.map (fun r => r._id))],
        acc.2.1 + p.2.baseCost, acc.2.2 + p.2.penaltyCost)

/-- `buildAssignmentsAndCost` (lines 281-311): one pass over the schedules
map in iteration order folding `buildStep`; every total is passed through
`Math.round` on output. -/
def buildAssignmentsAndCost (schedules : Schedules) : AssignResult :=
  let folded := schedules.foldl buildStep ([], 0, 0)
  let realTotalCost := folded.2.1
  let totalPenalty := folded.2.2
  let totalCost := realTotalCost + ((totalPenalty : ℚ) : QI)
  { assignments := folded.1
    realTotalCost := realTotalCost.map jsRound
    totalPenalty := jsRound totalPenalty
    totalCost := totalCost.map jsRound }

/-- Stable insertion of a ride into a list sorted by parsed start time,
keeping earlier rides first on equal keys. -/
def insertByStart (key : Ride → ℕ) (r : Ride) : List Ride → List Ride
  | [] => [r]
  | x :: xs => if key x ≤ key r then x :: insertByStart key r xs else r :: x :: xs

/-- Stable sort by parsed start time (insertion sort). -/
def stableSortByStart (key : Ride → ℕ) (rides : List Ride) : List Ride :=
  rides.foldl (fun acc r => insertByStart key r acc) []

/-- `sortRidesByStartTime` (lines 225-227): `Array.prototype.sort` with the
comparator `parse(a.startTime) - parse(b.startTime)`, a stable sort
(ES2019).  With at least two elements the engine's sort compares every
element at least once, so a malformed start time throws out of the
comparator (`none`); with zero or one element the comparator never runs. -/
def sortRidesByStartTime (rides : List Ride) : Option (List Ride) :=
  if rides.length ≤ 1 then some rides
  else do
    let _ ← rides.mapM (fun r => parseTimeToMinutes r.startTime)
    some (stableSortByStart (fun r => (parseTimeToMinutes r.startTime).getD 0) rides)

/-- The caller-facing options of `assignOptimizedRides` (lines 165-171);
`getTravelTimeFn = none` models the `null` default. -/
structure RunOptions where
  fairnessMode : Bool
  fairnessWeight : ℚ
  getTravelTimeFn : Option TravelFn

/-- The per-ride loop of `assignOptimizedRides` (lines 190-201): find the
best driver for the ride at the current schedules and commit when the
returned `bestDriverId` is truthy. -/
def assignLoop (tt : TravelFn) (dist : DistFn) (drivers : List Driver)
    (opts : FindOptions) : Schedules → List Ride → Option Schedules
  | schedules, [] => some schedules
  | schedules, ride :: rest => do
      let best ← findBestDriverForRide tt dist drivers schedules ride opts
      if jsTruthy best.bestDriverId then
        match best.bestDriverId with
        | some id =>
            assignLoop tt dist drivers opts
              (assignRide schedules id ride best.bestBaseCost opts.fairnessMode opts.fairnessWeight) rest
        | none => assignLoop tt dist drivers opts schedules rest
      else assignLoop tt dist drivers opts schedules rest

/-- `assignOptimizedRides` (lines 163-204).  `tt`/`dist` are the
module-level travel-time/distance lookups imported from the distance
service; the `getTravelTimeFn` option, when present, replaces the function
value that `findBestDriverForRide` receives in its options (and which ends
up discarded by `canDriverPerformRide`). -/
def assignOptimizedRides (tt : TravelFn) (dist : DistFn) (drivers : List Driver)
    (rides : List Ride) (opts : RunOptions) : Option AssignResult := do
  let travelFn := opts.getTravelTimeFn.getD tt
  let schedules := initializeSchedules drivers
  let sortedRides ← sortRidesByStartTime rides
  let final ← assignLoop tt dist drivers ⟨opts.fairnessMode, opts.fairnessWeight, travelFn⟩ schedules sortedRides
  pure (buildAssignmentsAndCost final)

/-! ## Derived notions used in the statements -/

/-- The departure point of a (driver, previousRide) pair: the previous
ride's end location, or the driver's home when there is none (the rule
shared by the feasibility check and the cost model). -/
def departCoords (driver : Driver) (prev : Option Ride) : Coord :=
  match prev with
  | some p => p.endPoint_coords
  | none => driver.city_coords

/-- The driver's earliest available minute: the previous ride's parsed end
time, or `0` ("always available") with no previous ride. -/
def availMinutes (prev : Option Ride) : Option ℕ :=
  match prev with
  | some p => parseTimeToMinutes p.endTime
  | none => some 0

/-- Feasibility of a driver for a ride at a given schedules state, exactly
as `findBestDriverForRide` evaluates it. -/
def feasibleFor (tt : TravelFn) (schedules : Schedules) (ride : Ride) (d : Driver) : Option Bool :=
  (lookupSched schedules d.driverId).bind (fun s => canDriverPerformRide tt d ride s.lastRide)

/-- The adjusted cost `findBestDriverForRide` compares for a driver at a
given schedules state: base cost plus the fairness penalty when
`fairnessMode` is enabled, base cost alone otherwise. -/
def adjCostFor (tt : TravelFn) (dist : DistFn) (schedules : Schedules) (ride : Ride)
    (fairnessMode : Bool) (fairnessWeight : ℚ) (d : Driver) : Option QI :=
  (lookupSched schedules d.driverId).bind (fun s =>
    (calculateRideCost tt dist d ride s.lastRide).map (fun b =>
      b + (((if fairnessMode then computePenalty s.rides.length fairnessWeight else 0) : ℚ) : QI)))

/-- Total number of occurrences of a ride id across every schedule of the
map. -/
def countAssigned (schedules : Schedules) (rid : String) : ℕ :=
  (schedules.map (fun p => (p.2.rides.map (fun r => r._id)).count rid)).sum

/-! ## Concrete fixtures for the witness instances -/

/-- A travel-time lookup answering five minutes everywhere. -/
def ttEx : TravelFn := fun _ _ => ((5 : ℚ) : QI)

/-- A road-distance lookup answering two kilometres everywhere. -/
def distEx : DistFn := fun _ _ => ((2 : ℚ) : QI)

/-- An active four-seat driver at coordinate `0`. -/
def driverEx : Driver :=
  { driverId := "d1", status := "active", numberOfSeats := 4, fuelCost := 2, city_coords := 0 }

/-- A second active driver with a higher fuel cost. -/
def driver2Ex : Driver :=
  { driverId := "d2", status := "active", numberOfSeats := 4, fuelCost := 3, city_coords := 3 }

/-- A four-seat ride from coordinate `1` to `2`, `08:00`-`08:20`. -/
def rideEx : Ride :=
  { _id := "r1", startTime := "08:00".toList, endTime := "08:20".toList
    startPoint_coords := 1, endPoint_coords := 2, numberOfSeats := 4 }

/-- A ride demanding more seats than any fixture driver offers. -/
def bigRideEx : Ride :=
  { _id := "r9", startTime := "09:00".toList, endTime := "09:30".toList
    startPoint_coords := 1, endPoint_coords := 2, numberOfSeats := 50 }

/-- A one-driver schedules map whose single driver carries one ride and a
fractional base-cost total. -/
def halfSchedEx : Schedules :=
  [("d1", { rides := [rideEx], baseCost := ((1 / 2 : ℚ) : QI), penaltyCost := 0, lastRide := some rideEx })]

/-! ## Lemmas about the time codec -/

/-- Splitting a colon-free chunk followed by a colon peels off one field. -/
theorem splitOnColon_append (a b : JStr) (ha : ∀ c ∈ a, c ≠ ':') :
    splitOnColon (a ++ ':' :: b) = a :: splitOnColon b := by
  induction a with
  | nil => simp [splitOnColon]
  | cons c cs ih =>
      have hc : c ≠ ':' := ha c (by simp)
      have h2 : splitOnColon (cs ++ ':' :: b) = cs :: splitOnColon b :=
        ih (fun x hx => ha x (by simp [hx]))
      simp [splitOnColon, hc, h2]

/-- A colon-free string is a single field. -/
theorem splitOnColon_single (b : JStr) (hb : ∀ c ∈ b, c ≠ ':') : splitOnColon b = [b] := by
  induction b with
  | nil => rfl
  | cons c cs ih =>
      have hc : c ≠ ':' := hb c (by simp)
      have h2 : splitOnColon cs = [cs] := ih (fun x hx => hb x (by simp [hx]))
      simp [splitOnColon, hc, h2]

set_option maxRecDepth 4000 in
/-- For `n < 60` the padded field is all digits and parses back to `n`. -/
theorem padTwo_facts : ∀ n < 60,
    jsNumberNat (some (padTwo n)) = some n ∧ (padTwo n).all Char.isDigit = true := by decide

/-- A digit field contains no colon. -/
theorem no_colon_of_digits (s : JStr) (h : s.all Char.isDigit = true) : ∀ c ∈ s, c ≠ ':' := by
  intro c hc
  have := List.all_eq_true.mp h c hc
  intro hcol; subst hcol; simp [Char.isDigit] at this

/-- Parsing a zero-padded pair of in-range fields recovers the minutes. -/
theorem parse_pad_pair (h m : ℕ) (hh : h ≤ 23) (hm : m ≤ 59) :
    parseTimeToMinutes (padTwo h ++ ':' :: padTwo m) = some (h * 60 + m) := by
  have hd1 := padTwo_facts h (by omega)
  have hd2 := padTwo_facts m (by omega)
  have hsplit : splitOnColon (padTwo h ++ ':' :: padTwo m) = [padTwo h, padTwo m] := by
    rw [splitOnColon_append _ _ (no_colon_of_digits _ hd1.2),
        splitOnColon_single _ (no_colon_of_digits _ hd2.2)]
  rw [parseTimeToMinutes, hsplit]
  simp only [List.getElem?_cons_zero, List.getElem?_cons_succ]
  rw [hd1.1, hd2.1]
  show (if h ≤ 23 ∧ m ≤ 59 then some (h * 60 + m) else none) = some (h * 60 + m)
  rw [if_pos ⟨hh, hm⟩]

/-- Claim C7: for every minute offset `m` in `[0, 1439]`, parsing the
zero-padded `"HH:mm"` encoding of `m` (hours `m / 60`, minutes `m % 60`,
each padded to two digits) returns exactly `m`: the time codec
round-trips. -/
theorem parseTimeToMinutes_fmtTime_roundTrip (m : ℕ) (hm : m < 1440) :
    parseTimeToMinutes (fmtTime m) = some m := by
  rw [fmtTime, parse_pad_pair (m / 60) (m % 60) (by omega) (by omega)]
  congr 1
  omega

/-- Witness for C7: the encoding of minute `450` (`"07:30"`) parses back
to `450`. -/
theorem parseTimeToMinutes_fmtTime_roundTrip_witness :
    parseTimeToMinutes (fmtTime 450) = some 450 :=
  parseTimeToMinutes_fmtTime_roundTrip 450 (by omega)

/-- Counterexample for C6: `"12:30:45"` has three colon-separated fields,
yet `parseTimeToMinutes` raises no error and returns `750` — the
destructuring silently drops the third field, refuting "throws whenever
the field count is not exactly two". -/
theorem parseTimeToMinutes_threeFields_counterexample :
    parseTimeToMinutes ('1' :: '2' :: ':' :: '3' :: '0' :: ':' :: '4' :: '5' :: []) = some 750 ∧
    (splitOnColon ('1' :: '2' :: ':' :: '3' :: '0' :: ':' :: '4' :: '5' :: [])).length = 3 := by
  decide

/-- Claim C6 (amended): `parseTimeToMinutes` errors whenever either of the
first two colon-separated fields fails the integer conversion (in
particular whenever the field count is below two, since the minutes field
is then `undefined`), or the parsed hour exceeds `23`, or the parsed
minute exceeds `59`; fields beyond the second are ignored; and every valid
two-field zero-padded `"HH:mm"` string returns `hours * 60 + minutes`
without error. -/
theorem parseTimeToMinutes_amended :
    (∀ t : JStr, jsNumberNat ((splitOnColon t)[0]?) = none ∨ jsNumberNat ((splitOnColon t)[1]?) = none →
      parseTimeToMinutes t = none) ∧
    (∀ (t : JStr) (h m : ℕ), jsNumberNat ((splitOnColon t)[0]?) = some h →
      jsNumberNat ((splitOnColon t)[1]?) = some m → (23 < h ∨ 59 < m) →
      parseTimeToMinutes t = none) ∧
    (∀ t : JStr, (splitOnColon t).length = 1 → parseTimeToMinutes t = none) ∧
    (∀ h m : ℕ, h ≤ 23 → m ≤ 59 →
      parseTimeToMinutes (padTwo h ++ ':' :: padTwo m) = some (h * 60 + m)) := by
  refine ⟨?_, ?_, ?_, parse_pad_pair⟩
  · intro t h
    rw [parseTimeToMinutes]
    rcases h with h | h
    · rw [h]
    · rw [h]
      cases jsNumberNat (splitOnColon t)[0]? <;> rfl
  · intro t h m hh hm hrange
    rw [parseTimeToMinutes, hh, hm]
    show (if h ≤ 23 ∧ m ≤ 59 then some (h * 60 + m) else none) = none
    rw [if_neg (by omega)]
  · intro t hlen
    have : (splitOnColon t)[1]? = none := by
      rw [List.getElem?_eq_none]
      omega
    rw [parseTimeToMinutes, this]
    cases jsNumberNat (splitOnColon t)[0]? <;> rfl

/-- Witness for C6 (amended): `"7:30"` → `450`; a lone field errors; hour
`24` errors. -/
theorem parseTimeToMinutes_amended_witness :
    parseTimeToMinutes (padTwo 7 ++ ':' :: padTwo 30) = some (7 * 60 + 30) :=
  parseTimeToMinutes_amended.2.2.2 7 30 (by omega) (by omega)

/-! ## Lemmas about the distance service -/

/-- Claim C5: with the air-distance filter enabled, a pair whose air
distance exceeds `maxAirDistanceKm` makes the travel-time lookup return
the `Infinity` sentinel with zero backend calls; a pair within the
threshold defers to the raw backend lookup. -/
theorem getTravelTimeInMinutes_filterBoundary (cfg : Config) (air : AirFn) (backend : Backend)
    (a b : Coord) (henabled : cfg.useAirDistanceFilter = true) :
    (cfg.maxAirDistanceKm < air a b →
      getTravelTimeInMinutes cfg air backend a b = (⊤, 0)) ∧
    (air a b ≤ cfg.maxAirDistanceKm →
      getTravelTimeInMinutes cfg air backend a b = rawTravelTime backend a b) := by
  constructor
  · intro hfar
    rw [getTravelTimeInMinutes, if_pos henabled, filteredTravelTime, if_pos hfar]
  · intro hnear
    rw [getTravelTimeInMinutes, if_pos henabled, filteredTravelTime, if_neg (not_lt.mpr hnear)]

/-- Witness for C5: with a `5` km threshold and an air distance of `7` km,
the lookup short-circuits to `(⊤, 0)`; at `3` km it equals the raw lookup. -/
theorem getTravelTimeInMinutes_filterBoundary_witness :
    getTravelTimeInMinutes ⟨true, 5⟩ (fun _ _ => 7) (fun _ _ => some 600) 0 1 = (⊤, 0) :=
  (getTravelTimeInMinutes_filterBoundary ⟨true, 5⟩ (fun _ _ => 7) (fun _ _ => some 600) 0 1 rfl).1
    (by norm_num)

/-! ## Lemmas about the feasibility check and the cost model -/

/-- Closed form of the feasibility check once the two relevant time
strings parse. -/
theorem canDriverPerformRide_closedForm (tt : TravelFn) (d : Driver) (r : Ride)
    (prev : Option Ride) (s a : ℕ) (hs : parseTimeToMinutes r.startTime = some s)
    (ha : availMinutes prev = some a) :
    canDriverPerformRide tt d r prev =
      if d.status ≠ "active" then some false
      else if d.numberOfSeats < r.numberOfSeats then some false
      else if ((s : ℚ) : QI) < ((a : ℚ) : QI) + tt (departCoords d prev) r.startPoint_coords
        then some false else some true := by
  cases prev with
  | none =>
      obtain rfl : (0 : ℕ) = a := by simpa [availMinutes] using ha
      simp [canDriverPerformRide, departCoords, hs]
  | some p =>
      have hp : parseTimeToMinutes p.endTime = some a := by simpa [availMinutes] using ha
      simp [canDriverPerformRide, departCoords, hs, hp]

/-- Claim C2: once the ride's start time (and the previous ride's end
time, when one exists) parse, `canDriverPerformRide` returns `true` iff
the driver is active, seats suffice, and
`availableTime + travelTime ≤ rideStart` (zero slack accepted), where the
departure point is the previous ride's end location or the driver's home;
and an `Infinity` travel time always yields `false`. -/
theorem canDriverPerformRide_spec (tt : TravelFn) (d : Driver) (r : Ride)
    (prev : Option Ride) (s a : ℕ) (hs : parseTimeToMinutes r.startTime = some s)
    (ha : availMinutes prev = some a) :
    (canDriverPerformRide tt d r prev = some true ↔
      (d.status = "active" ∧ r.numberOfSeats ≤ d.numberOfSeats ∧
        ((a : ℚ) : QI) + tt (departCoords d prev) r.startPoint_coords ≤ ((s : ℚ) : QI))) ∧
    (tt (departCoords d prev) r.startPoint_coords = ⊤ →
      canDriverPerformRide tt d r prev = some false) := by
  rw [canDriverPerformRide_closedForm tt d r prev s a hs ha]
  constructor
  · constructor
    · intro h
      split_ifs at h with h1 h2 h3
      · exact absurd h (by simp)
      · exact absurd h (by simp)
      · exact absurd h (by simp)
      · exact ⟨not_not.mp h1, not_lt.mp h2, not_lt.mp h3⟩
    · rintro ⟨hst, hseat, hle⟩
      rw [if_neg (by simp [hst]), if_neg (not_lt.mpr hseat), if_neg (not_lt.mpr hle)]
  · intro htop
    rw [htop]
    split_ifs with h1 h2 h3
    · rfl
    · rfl
    · rfl
    · exact absurd (by rw [add_top]; exact WithTop.coe_lt_top _) h3

/-- Witness for C2: the fixture driver, departing from home with a
five-minute travel time, can take the `08:00` ride; the conjunction's
right side holds at `a = 0`, `s = 480`. -/
theorem canDriverPerformRide_spec_witness :
    canDriverPerformRide ttEx driverEx rideEx none = some true :=
  ((canDriverPerformRide_spec ttEx driverEx rideEx none 480 0 (by decide) rfl).1).mpr
    ⟨rfl, by decide, by
      show ((0 : ℚ) : QI) + ((5 : ℚ) : QI) ≤ ((480 : ℚ) : QI)
      rw [← WithTop.coe_add, WithTop.coe_le_coe]
      norm_num⟩

/-- Claim C3: once the ride's two time strings parse and the three lookups
are finite, the base cost is
`(emptyMinutes + serviceMinutes) / 60 * 30 + fuelCost * (emptyKm + serviceKm)`
with the fixed hourly rate `30` and no fairness penalty. -/
theorem calculateRideCost_spec (tt : TravelFn) (dist : DistFn) (d : Driver) (r : Ride)
    (lastRide : Option Ride) (s e : ℕ) (t d1 d2 : ℚ)
    (hs : parseTimeToMinutes r.startTime = some s) (he : parseTimeToMinutes r.endTime = some e)
    (ht : tt (departCoords d lastRide) r.startPoint_coords = ((t : ℚ) : QI))
    (hd1 : dist (departCoords d lastRide) r.startPoint_coords = ((d1 : ℚ) : QI))
    (hd2 : dist r.startPoint_coords r.endPoint_coords = ((d2 : ℚ) : QI)) :
    calculateRideCost tt dist d r lastRide =
      some ((((t + ((e : ℚ) - (s : ℚ))) / 60 * 30 + d.fuelCost * (d1 + d2) : ℚ)) : QI) := by
  cases lastRide with
  | none =>
      simp only [departCoords] at ht hd1
      simp only [calculateRideCost, hs, he, ht, hd1, hd2, Option.bind_eq_bind, Option.some_bind]
      simp only [← WithTop.coe_add, WithTop.map_coe]
      rfl
  | some p =>
      simp only [departCoords] at ht hd1
      simp only [calculateRideCost, hs, he, ht, hd1, hd2, Option.bind_eq_bind, Option.some_bind]
      simp only [← WithTop.coe_add, WithTop.map_coe]
      rfl

/-- Witness for C3: on the fixture pair the base cost evaluates to
`(5 + 20) / 60 * 30 + 2 * (2 + 2) = 41 / 2`. -/
theorem calculateRideCost_spec_witness :
    calculateRideCost ttEx distEx driverEx rideEx none =
      some ((((5 + ((500 : ℚ) - (480 : ℚ))) / 60 * 30 + driverEx.fuelCost * (2 + 2) : ℚ)) : QI) :=
  calculateRideCost_spec ttEx distEx driverEx rideEx none 480 500 5 2 2
    (by decide) (by decide) rfl rfl rfl

/-! ## The travel-time override is discarded -/

/-- `findStep` does not depend on the `getTravelTimeFn` field: the only
place it flows to is the discarded fourth argument. -/
theorem findStep_override (tt : TravelFn) (dist : DistFn) (schedules : Schedules) (ride : Ride)
    (fm : Bool) (fw : ℚ) (f g : TravelFn) :
    findStep tt dist schedules ride ⟨fm, fw, f⟩ = findStep tt dist schedules ride ⟨fm, fw, g⟩ := rfl

/-- `findBestDriverForRide` is likewise independent of the override. -/
theorem findBest_override (tt : TravelFn) (dist : DistFn) (drivers : List Driver)
    (schedules : Schedules) (ride : Ride) (fm : Bool) (fw : ℚ) (f g : TravelFn) :
    findBestDriverForRide tt dist drivers schedules ride ⟨fm, fw, f⟩ =
      findBestDriverForRide tt dist drivers schedules ride ⟨fm, fw, g⟩ := by
  rw [findBestDriverForRide, findBestDriverForRide, findStep_override tt dist schedules ride fm fw f g]

/-- The whole per-ride loop is independent of the override. -/
theorem assignLoop_override (tt : TravelFn) (dist : DistFn) (drivers : List Driver)
    (fm : Bool) (fw : ℚ) (f g : TravelFn) (rides : List Ride) : ∀ schedules : Schedules,
    assignLoop tt dist drivers ⟨fm, fw, f⟩ schedules rides =
      assignLoop tt dist drivers ⟨fm, fw, g⟩ schedules rides := by
  induction rides with
  | nil => intro schedules; rfl
  | cons ride rest ih =>
      intro schedules
      rw [assignLoop, assignLoop, findBest_override tt dist drivers schedules ride fm fw f g]
      cases findBestDriverForRide tt dist drivers schedules ride ⟨fm, fw, g⟩ with
      | none => rfl
      | some best =>
          obtain ⟨bid, badj, bbase⟩ := best
          simp only [Option.bind_eq_bind, Option.some_bind]
          cases bid with
          | none => exact ih schedules
          | some id =>
              by_cases hid : id = ""
              · simp only [jsTruthy, hid]
                simp
                exact ih schedules
              · simp only [jsTruthy, ne_eq, hid]
                simp
                exact ih _

/-- Claim C10: the fourth argument of `canDriverPerformRide` is discarded
(the declared parameter list has three entries), so any two travel-time
overrides give the same feasibility answer, and the `getTravelTimeFn`
option of `assignOptimizedRides` never changes the run's output. -/
theorem canDriverPerformRide_ignores_override :
    (∀ (tt : TravelFn) (d : Driver) (r : Ride) (prev : Option Ride) (f g : TravelFn),
      canDriverPerformRide4 tt d r prev f = canDriverPerformRide4 tt d r prev g) ∧
    (∀ (tt : TravelFn) (dist : DistFn) (drivers : List Driver) (rides : List Ride)
      (fm : Bool) (fw : ℚ) (f g : Option TravelFn),
      assignOptimizedRides tt dist drivers rides ⟨fm, fw, f⟩ =
        assignOptimizedRides tt dist drivers rides ⟨fm, fw, g⟩) := by
  constructor
  · intro tt d r prev f g
    rfl
  · intro tt dist drivers rides fm fw f g
    rw [assignOptimizedRides, assignOptimizedRides]
    cases sortRidesByStartTime rides with
    | none => rfl
    | some sorted =>
        simp only [Option.bind_eq_bind, Option.some_bind]
        rw [assignLoop_override tt dist drivers fm fw (f.getD tt) (g.getD tt) sorted]

/-! ## The result aggregator -/

/-- Closed form of the aggregation fold, for any starting accumulator. -/
theorem build_foldl (schedules : Schedules) : ∀ acc : List (String × List String) × QI × ℚ,
    schedules.foldl buildStep acc =
      (acc.1 ++ (schedules.filter (fun p => p.2.rides.length ≠ 0)).map
          (fun p => (p.1, p.2.rides.map (fun r => r._id))),
       acc.2.1 + ((schedules.filter (fun p => p.2.rides.length ≠ 0)).map
          (fun p => p.2.baseCost)).sum,
       acc.2.2 + ((schedules.filter (fun p => p.2.rides.length ≠ 0)).map
          (fun p => p.2.penaltyCost)).sum) := by
  induction schedules with
  | nil => intro acc; simp
  | cons p rest ih =>
      intro acc
      by_cases hp : p.2.rides.length = 0
      · rw [List.foldl_cons]
        rw [show buildStep acc p = acc from if_pos hp]
        rw [ih acc]
        simp [List.filter_cons, hp]
      · rw [List.foldl_cons]
        rw [show buildStep acc p =
            (acc.1 ++ [(p.1, p.2.rides.map (fun r => r._id))],
             acc.2.1 + p.2.baseCost, acc.2.2 + p.2.penaltyCost) from if_neg hp]
        rw [ih _]
        simp [List.filter_cons, hp, add_assoc]

/-- Restricting a sum to drivers with rides changes nothing when ride-less
drivers carry a zero value. -/
theorem filter_map_sum {M : Type} [AddCommMonoid M] (f : String × Schedule → M)
    (schedules : Schedules) (h : ∀ p ∈ schedules, p.2.rides.length = 0 → f p = 0) :
    ((schedules.filter (fun p => p.2.rides.length ≠ 0)).map f).sum =
      (schedules.map f).sum := by
  induction schedules with
  | nil => rfl
  | cons p rest ih =>
      have hrest : (List.map f (List.filter (fun q => !decide (q.2.rides.length = 0)) rest)).sum =
          (List.map f rest).sum := by
        simpa using ih (fun q hq => h q (List.mem_cons_of_mem p hq))
      by_cases hp : p.2.rides.length = 0
      · simp [List.filter_cons, hp, hrest, h p (List.mem_cons_self p rest) hp]
      · simp [List.filter_cons, hp, hrest]

/-- Counterexample for C9: on a schedules state whose lone driver carries
base-cost total `1/2`, the emitted `realTotalCost` is the rounded `1`, not
the exact sum `1/2` the claim asserts. -/
theorem buildAssignmentsAndCost_rounding_counterexample :
    (buildAssignmentsAndCost halfSchedEx).realTotalCost = ((1 : ℤ) : WithTop ℤ) ∧
    (halfSchedEx.map (fun p => p.2.baseCost)).sum = ((1 / 2 : ℚ) : QI) ∧
    ¬ (((1 : ℤ) : ℚ) = 1 / 2) := by
  refine ⟨?_, ?_, by norm_num⟩
  · show (WithTop.map jsRound (0 + ((1 / 2 : ℚ) : QI)) : WithTop ℤ) = ((1 : ℤ) : WithTop ℤ)
    rw [zero_add, WithTop.map_coe, jsRound]
    norm_num
  · simp [halfSchedEx]

/-- Claim C9 (amended): `buildAssignmentsAndCost` lists exactly the
drivers with at least one ride; on any state where ride-less drivers carry
zero totals (true of every state the run produces), `realTotalCost` is the
all-driver base-cost sum rounded to a whole unit, `totalPenalty` the
all-driver penalty sum rounded, and `totalCost` their exact sum rounded. -/
theorem buildAssignmentsAndCost_spec (schedules : Schedules)
    (hzero : ∀ p ∈ schedules, p.2.rides.length = 0 → p.2.baseCost = 0 ∧ p.2.penaltyCost = 0) :
    (buildAssignmentsAndCost schedules).assignments =
      (schedules.filter (fun p => p.2.rides.length ≠ 0)).map
        (fun p => (p.1, p.2.rides.map (fun r => r._id))) ∧
    (buildAssignmentsAndCost schedules).realTotalCost =
      WithTop.map jsRound ((schedules.map (fun p => p.2.baseCost)).sum) ∧
    (buildAssignmentsAndCost schedules).totalPenalty =
      jsRound ((schedules.map (fun p => p.2.penaltyCost)).sum) ∧
    (buildAssignmentsAndCost schedules).totalCost =
      WithTop.map jsRound ((schedules.map (fun p => p.2.baseCost)).sum +
        (((schedules.map (fun p => p.2.penaltyCost)).sum : ℚ) : QI)) := by
  have hbase := filter_map_sum (fun p => p.2.baseCost) schedules
    (fun p hp h0 => (hzero p hp h0).1)
  have hpen := filter_map_sum (fun p => p.2.penaltyCost) schedules
    (fun p hp h0 => (hzero p hp h0).2)
  rw [buildAssignmentsAndCost]
  rw [build_foldl schedules ([], 0, 0)]
  refine ⟨by simp, ?_, ?_, ?_⟩
  · show WithTop.map jsRound ((0 : QI) +
        ((schedules.filter (fun p => p.2.rides.length ≠ 0)).map (fun p => p.2.baseCost)).sum) =
      WithTop.map jsRound ((schedules.map (fun p => p.2.baseCost)).sum)
    rw [zero_add, hbase]
  · show jsRound ((0 : ℚ) +
        ((schedules.filter (fun p => p.2.rides.length ≠ 0)).map (fun p => p.2.penaltyCost)).sum) =
      jsRound ((schedules.map (fun p => p.2.penaltyCost)).sum)
    rw [zero_add, hpen]
  · show WithTop.map jsRound ((0 : QI) +
        ((schedules.filter (fun p => p.2.rides.length ≠ 0)).map (fun p => p.2.baseCost)).sum +
        ((((0 : ℚ) +
          ((schedules.filter (fun p => p.2.rides.length ≠ 0)).map (fun p => p.2.penaltyCost)).sum : ℚ)) : QI)) =
      WithTop.map jsRound ((schedules.map (fun p => p.2.baseCost)).sum +
        (((schedules.map (fun p => p.2.penaltyCost)).sum : ℚ) : QI))
    rw [zero_add, zero_add, hbase, hpen]

/-- Witness for C9 (amended): the lone-fixture state satisfies the
zero-totals side condition, and the amended equations hold there. -/
theorem buildAssignmentsAndCost_spec_witness :
    (buildAssignmentsAndCost halfSchedEx).assignments =
      (halfSchedEx.filter (fun p => p.2.rides.length ≠ 0)).map
        (fun p => (p.1, p.2.rides.map (fun r => r._id))) ∧
    (buildAssignmentsAndCost halfSchedEx).realTotalCost =
      WithTop.map jsRound ((halfSchedEx.map (fun p => p.2.baseCost)).sum) ∧
    (buildAssignmentsAndCost halfSchedEx).totalPenalty =
      jsRound ((halfSchedEx.map (fun p => p.2.penaltyCost)).sum) ∧
    (buildAssignmentsAndCost halfSchedEx).totalCost =
      WithTop.map jsRound ((halfSchedEx.map (fun p => p.2.baseCost)).sum +
        (((halfSchedEx.map (fun p => p.2.penaltyCost)).sum : ℚ) : QI)) :=
  buildAssignmentsAndCost_spec halfSchedEx (by simp [halfSchedEx])

/-! ## Counting committed rides -/

/-- Unfolding of `countAssigned` over a cons cell. -/
theorem countAssigned_cons (k : String) (s : Schedule) (rest : Schedules) (rid : String) :
    countAssigned ((k, s) :: rest) rid =
      (s.rides.map (fun r => r._id)).count rid + countAssigned rest rid := by
  simp [countAssigned]

/-- A fresh schedules map holds no committed rides. -/
theorem countAssigned_init (drivers : List Driver) (rid : String) :
    countAssigned (initializeSchedules drivers) rid = 0 := by
  induction drivers with
  | nil => rfl
  | cons d rest ih => simpa [initializeSchedules, countAssigned_cons] using ih

/-- Committing one ride raises the count of a given id by at most one, and
only when the committed ride carries that id. -/
theorem countAssigned_assignRide (schedules : Schedules) (id : String) (ride : Ride)
    (b : QI) (fm : Bool) (fw : ℚ) (rid : String) :
    countAssigned (assignRide schedules id ride b fm fw) rid ≤
      countAssigned schedules rid + (if ride._id = rid then 1 else 0) := by
  induction schedules with
  | nil => simp [assignRide, updateSched, countAssigned]
  | cons p rest ih =>
      obtain ⟨k, s⟩ := p
      by_cases hk : k = id
      · rw [assignRide, updateSched, if_pos hk]
        rw [countAssigned_cons, countAssigned_cons]
        simp only [List.map_append, List.count_append, List.map_cons, List.map_nil]
        have hsingle : ([ride._id] : List String).count rid = if ride._id = rid then 1 else 0 := by
          simp [List.count_cons]
        omega
      · rw [assignRide, updateSched, if_neg hk]
        rw [countAssigned_cons, countAssigned_cons]
        have := ih
        rw [assignRide] at this
        omega

/-- An uncommitted step of the main loop leaves the schedules unchanged;
a committed one appends exactly the processed ride, so across the loop a
ride id is committed at most as often as it occurs among the processed
rides. -/
theorem countAssigned_assignLoop (tt : TravelFn) (dist : DistFn) (drivers : List Driver)
    (opts : FindOptions) (rid : String) : ∀ (rides : List Ride) (schedules final : Schedules),
    assignLoop tt dist drivers opts schedules rides = some final →
    countAssigned final rid ≤ countAssigned schedules rid + (rides.map (fun r => r._id)).count rid := by
  intro rides
  induction rides with
  | nil =>
      intro schedules final h
      obtain rfl : schedules = final := by simpa [assignLoop] using h
      simp
  | cons ride rest ih =>
      intro schedules final h
      rw [assignLoop] at h
      cases hfb : findBestDriverForRide tt dist drivers schedules ride opts with
      | none => rw [hfb] at h; simp at h
      | some best =>
          rw [hfb] at h
          simp only [Option.bind_eq_bind, Option.some_bind] at h
          have hcount : (List.map (fun r => r._id) (ride :: rest)).count rid =
              (rest.map (fun r => r._id)).count rid + (if ride._id = rid then 1 else 0) := by
            simp [List.count_cons]
          obtain ⟨bid, badj, bbase⟩ := best
          cases bid with
          | none =>
              simp only [jsTruthy] at h
              simp only [Bool.false_eq_true, if_false] at h
              have := ih schedules final h
              omega
          | some id =>
              by_cases hid : id = ""
              · simp only [jsTruthy, hid] at h
                simp at h
                have := ih schedules final h
                omega
              · simp [jsTruthy, hid] at h
                have hstep := countAssigned_assignRide schedules id ride bbase
                  opts.fairnessMode opts.fairnessWeight rid
                have := ih _ final h
                omega

/-- The ride ids listed in the aggregated output are exactly the committed
ones. -/
theorem count_assignments (schedules : Schedules) (rid : String) :
    (((buildAssignmentsAndCost schedules).assignments.map Prod.snd).flatten.count rid) =
      countAssigned schedules rid := by
  have hassign : (buildAssignmentsAndCost schedules).assignments =
      (schedules.filter (fun p => p.2.rides.length ≠ 0)).map
        (fun p => (p.1, p.2.rides.map (fun r => r._id))) := by
    rw [buildAssignmentsAndCost, build_foldl schedules ([], 0, 0)]
    simp
  rw [hassign, List.map_map]
  clear hassign
  induction schedules with
  | nil => rfl
  | cons p rest ih =>
      obtain ⟨k, s⟩ := p
      rw [List.filter_cons]
      by_cases hp : s.rides.length = 0
      · rw [if_neg (by simpa using hp)]
        have hnil : s.rides = [] := List.length_eq_zero.mp hp
        rw [countAssigned_cons, hnil, ih]
        simp
      · rw [if_pos (by simpa using hp)]
        rw [List.map_cons, List.flatten_cons, List.count_append, countAssigned_cons, ih]
        rfl

/-- The sorted ride list is a permutation of the input. -/
theorem insertByStart_perm (key : Ride → ℕ) (r : Ride) (l : List Ride) :
    List.Perm (insertByStart key r l) (r :: l) := by
  induction l with
  | nil => exact List.Perm.refl _
  | cons x xs ih =>
      rw [insertByStart]
      by_cases hx : key x ≤ key r
      · rw [if_pos hx]
        exact (List.Perm.cons x ih).trans (List.Perm.swap r x xs)
      · rw [if_neg hx]

/-- The stable insertion sort permutes its input. -/
theorem stableSortByStart_perm (key : Ride → ℕ) (rides : List Ride) :
    List.Perm (stableSortByStart key rides) rides := by
  suffices h : ∀ l acc : List Ride,
      List.Perm (l.foldl (fun acc r => insertByStart key r acc) acc) (acc ++ l) by
    simpa using h rides []
  intro l
  induction l with
  | nil => intro acc; simp
  | cons x xs ih =>
      intro acc
      rw [List.foldl_cons]
      refine ((ih _).trans ?_)
      exact ((insertByStart_perm key x acc).append_right xs).trans List.perm_middle.symm

/-- Whatever `sortRidesByStartTime` returns is a permutation of its
input. -/
theorem sortRidesByStartTime_perm (rides sorted : List Ride)
    (h : sortRidesByStartTime rides = some sorted) : List.Perm sorted rides := by
  rw [sortRidesByStartTime] at h
  by_cases hlen : rides.length ≤ 1
  · rw [if_pos hlen] at h
    obtain rfl : rides = sorted := by simpa using h
    exact List.Perm.refl _
  · rw [if_neg hlen] at h
    cases hm : rides.mapM (fun r => parseTimeToMinutes r.startTime) with
    | none => rw [hm] at h; simp at h
    | some keys =>
        rw [hm] at h
        simp only [Option.bind_eq_bind, Option.some_bind, Option.some.injEq] at h
        subst h
        exact stableSortByStart_perm _ rides

/-- Claim C4: on a ride list with pairwise-distinct ids, every ride id
occurs at most once across all `rideIds` lists of the returned
assignments — each ride is committed to at most one driver, at most
once. -/
theorem assignOptimizedRides_atMostOnce (tt : TravelFn) (dist : DistFn)
    (drivers : List Driver) (rides : List Ride) (opts : RunOptions) (res : AssignResult)
    (hids : (rides.map (fun r => r._id)).Nodup)
    (h : assignOptimizedRides tt dist drivers rides opts = some res) :
    ∀ rid : String, ((res.assignments.map Prod.snd).flatten.count rid) ≤ 1 := by
  intro rid
  rw [assignOptimizedRides] at h
  cases hs : sortRidesByStartTime rides with
  | none => rw [hs] at h; simp at h
  | some sorted =>
      rw [hs] at h
      simp only [Option.bind_eq_bind, Option.some_bind] at h
      cases hl : assignLoop tt dist drivers
          ⟨opts.fairnessMode, opts.fairnessWeight, opts.getTravelTimeFn.getD tt⟩
          (initializeSchedules drivers) sorted with
      | none => rw [hl] at h; simp at h
      | some final =>
          rw [hl] at h
          simp only [Option.some_bind, Option.pure_def, Option.some.injEq] at h
          subst h
          rw [count_assignments final rid]
          have hloop := countAssigned_assignLoop tt dist drivers _ rid sorted
            (initializeSchedules drivers) final hl
          rw [countAssigned_init drivers rid] at hloop
          have hperm : (sorted.map (fun r => r._id)).count rid =
              (rides.map (fun r => r._id)).count rid :=
            ((sortRidesByStartTime_perm rides sorted hs).map (fun r => r._id)).count_eq rid
          have hnodup : (rides.map (fun r => r._id)).count rid ≤ 1 :=
            List.nodup_iff_count_le_one.mp hids rid
          omega

/-! ## Rides with no feasible driver -/

/-- Insufficient seats alone force a `false` answer (the checks precede
any time parsing, so no error can escape). -/
theorem canDriverPerformRide_seatReject (tt : TravelFn) (d : Driver) (r : Ride)
    (prev : Option Ride) (h : d.numberOfSeats < r.numberOfSeats) :
    canDriverPerformRide tt d r prev = some false := by
  rw [canDriverPerformRide]
  by_cases hst : d.status ≠ "active"
  · rw [if_pos hst]
  · rw [if_neg hst, if_pos h]

/-- A driver rejected by the feasibility check leaves the scan state
untouched. -/
theorem findStep_skip (tt : TravelFn) (dist : DistFn) (schedules : Schedules) (ride : Ride)
    (opts : FindOptions) (acc : BestAcc) (d : Driver) (s : Schedule)
    (hl : lookupSched schedules d.driverId = some s)
    (hf : canDriverPerformRide tt d ride s.lastRide = some false) :
    findStep tt dist schedules ride opts acc d = some acc := by
  rw [findStep]
  simp [hl, canDriverPerformRide4, hf]

/-- When the ride demands more seats than any driver offers, the scan ends
with no selection, no error, and the initial state intact. -/
theorem findBest_none_of_seatInfeasible (tt : TravelFn) (dist : DistFn)
    (drivers : List Driver) (schedules : Schedules) (ride : Ride) (opts : FindOptions)
    (hcov : ∀ d ∈ drivers, (lookupSched schedules d.driverId).isSome = true)
    (hseats : ∀ d ∈ drivers, d.numberOfSeats < ride.numberOfSeats) :
    findBestDriverForRide tt dist drivers schedules ride opts = some ⟨none, ⊤, 0⟩ := by
  rw [findBestDriverForRide]
  induction drivers with
  | nil => rfl
  | cons d rest ih =>
      obtain ⟨s, hs⟩ := Option.isSome_iff_exists.mp (hcov d (List.mem_cons_self d rest))
      rw [List.foldlM_cons]
      rw [findStep_skip tt dist schedules ride opts _ d s hs
        (canDriverPerformRide_seatReject tt d ride s.lastRide
          (hseats d (List.mem_cons_self d rest)))]
      simp only [Option.bind_eq_bind, Option.some_bind]
      exact ih (fun q hq => hcov q (List.mem_cons_of_mem d hq))
        (fun q hq => hseats q (List.mem_cons_of_mem d hq))

/-- The per-ride loop silently skips a ride nobody can take. -/
theorem assignLoop_skips_infeasible (tt : TravelFn) (dist : DistFn)
    (drivers : List Driver) (schedules : Schedules) (r0 : Ride) (fopts : FindOptions)
    (rest : List Ride)
    (hcov : ∀ d ∈ drivers, (lookupSched schedules d.driverId).isSome = true)
    (hseats : ∀ d ∈ drivers, d.numberOfSeats < r0.numberOfSeats) :
    assignLoop tt dist drivers fopts schedules (r0 :: rest) =
      assignLoop tt dist drivers fopts schedules rest := by
  rw [assignLoop, findBest_none_of_seatInfeasible tt dist drivers schedules r0 fopts hcov hseats]
  simp [jsTruthy]

/-- `updateSched` rewrites values in place: the key set is unchanged. -/
theorem lookupSched_updateSched_isSome (schedules : Schedules) (id k : String)
    (f : Schedule → Schedule) :
    (lookupSched (updateSched schedules id f) k).isSome =
      (lookupSched schedules k).isSome := by
  induction schedules with
  | nil => rfl
  | cons p rest ih =>
      obtain ⟨pk, ps⟩ := p
      by_cases hk : pk = id
      · rw [updateSched, if_pos hk]
        by_cases hk2 : pk = k
        · rw [lookupSched, lookupSched, if_pos hk2, if_pos hk2]; rfl
        · rw [lookupSched, lookupSched, if_neg hk2, if_neg hk2]
      · rw [updateSched, if_neg hk]
        by_cases hk2 : pk = k
        · rw [lookupSched, lookupSched, if_pos hk2, if_pos hk2]
        · rw [lookupSched, lookupSched, if_neg hk2, if_neg hk2, ih]

/-- Every driver has an entry in the freshly initialized schedules map. -/
theorem lookupSched_init (drivers : List Driver) (d : Driver) (hd : d ∈ drivers) :
    (lookupSched (initializeSchedules drivers) d.driverId).isSome = true := by
  induction drivers with
  | nil => cases hd
  | cons x rest ih =>
      rw [initializeSchedules, List.map_cons, lookupSched]
      by_cases hk : x.driverId = d.driverId
      · rw [if_pos hk]; rfl
      · rw [if_neg hk]
        rcases List.mem_cons.mp hd with rfl | hmem
        · exact absurd rfl hk
        · exact ih hmem

/-- Across the loop, a ride id that every processed occurrence of which is
seat-infeasible for all drivers is never committed. -/
theorem assignLoop_never_assigns (tt : TravelFn) (dist : DistFn) (drivers : List Driver)
    (fopts : FindOptions) (rid : String) : ∀ (rides : List Ride) (schedules final : Schedules),
    (∀ r ∈ rides, r._id = rid → ∀ d ∈ drivers, d.numberOfSeats < r.numberOfSeats) →
    (∀ d ∈ drivers, (lookupSched schedules d.driverId).isSome = true) →
    countAssigned schedules rid = 0 →
    assignLoop tt dist drivers fopts schedules rides = some final →
    countAssigned final rid = 0 := by
  intro rides
  induction rides with
  | nil =>
      intro schedules final _ _ hcount h
      obtain rfl : schedules = final := by simpa [assignLoop] using h
      exact hcount
  | cons r rest ih =>
      intro schedules final hinf hcov hcount h
      by_cases hr : r._id = rid
      · rw [assignLoop_skips_infeasible tt dist drivers schedules r fopts rest hcov
          (hinf r (List.mem_cons_self r rest) hr)] at h
        exact ih schedules final (fun q hq => hinf q (List.mem_cons_of_mem r hq)) hcov hcount h
      · rw [assignLoop] at h
        cases hfb : findBestDriverForRide tt dist drivers schedules r fopts with
        | none => rw [hfb] at h; simp at h
        | some best =>
            rw [hfb] at h
            simp only [Option.bind_eq_bind, Option.some_bind] at h
            obtain ⟨bid, badj, bbase⟩ := best
            cases bid with
            | none =>
                simp only [jsTruthy, Bool.false_eq_true, if_false] at h
                exact ih schedules final (fun q hq => hinf q (List.mem_cons_of_mem r hq))
                  hcov hcount h
            | some id =>
                by_cases hid : id = ""
                · simp [jsTruthy, hid] at h
                  exact ih schedules final (fun q hq => hinf q (List.mem_cons_of_mem r hq))
                    hcov hcount h
                · simp [jsTruthy, hid] at h
                  have hcov2 : ∀ d ∈ drivers,
                      (lookupSched (assignRide schedules id r bbase
                        fopts.fairnessMode fopts.fairnessWeight) d.driverId).isSome = true := by
                    intro q hq
                    rw [assignRide, lookupSched_updateSched_isSome]
                    exact hcov q hq
                  have hcount2 : countAssigned (assignRide schedules id r bbase
                      fopts.fairnessMode fopts.fairnessWeight) rid = 0 := by
                    have := countAssigned_assignRide schedules id r bbase
                      fopts.fairnessMode fopts.fairnessWeight rid
                    rw [if_neg hr] at this
                    omega
                  exact ih _ final (fun q hq => hinf q (List.mem_cons_of_mem r hq))
                    hcov2 hcount2 h

/-- Claim C8: when no driver can take a ride — in particular when its
required seats exceed every driver's capacity — the selection scan reports
"no driver" without error, processing that ride leaves every schedule
unchanged, and the ride's id appears in no `rideIds` list of the run's
output. -/
theorem assignOptimizedRides_noFeasibleDriver (tt : TravelFn) (dist : DistFn)
    (drivers : List Driver) (rides : List Ride) (opts : RunOptions) (r0 : Ride)
    (res : AssignResult) (hin : r0 ∈ rides)
    (hids : (rides.map (fun r => r._id)).Nodup)
    (hseats : ∀ d ∈ drivers, d.numberOfSeats < r0.numberOfSeats)
    (h : assignOptimizedRides tt dist drivers rides opts = some res) :
    (∀ (schedules : Schedules) (fopts : FindOptions) (rest : List Ride),
      (∀ d ∈ drivers, (lookupSched schedules d.driverId).isSome = true) →
      findBestDriverForRide tt dist drivers schedules r0 fopts = some ⟨none, ⊤, 0⟩ ∧
      assignLoop tt dist drivers fopts schedules (r0 :: rest) =
        assignLoop tt dist drivers fopts schedules rest) ∧
    ∀ p ∈ res.assignments, r0._id ∉ p.2 := by
  constructor
  · intro schedules fopts rest hcov
    exact ⟨findBest_none_of_seatInfeasible tt dist drivers schedules r0 fopts hcov hseats,
      assignLoop_skips_infeasible tt dist drivers schedules r0 fopts rest hcov hseats⟩
  · rw [assignOptimizedRides] at h
    cases hs : sortRidesByStartTime rides with
    | none => rw [hs] at h; simp at h
    | some sorted =>
        rw [hs] at h
        simp only [Option.bind_eq_bind, Option.some_bind] at h
        cases hl : assignLoop tt dist drivers
            ⟨opts.fairnessMode, opts.fairnessWeight, opts.getTravelTimeFn.getD tt⟩
            (initializeSchedules drivers) sorted with
        | none => rw [hl] at h; simp at h
        | some final =>
            rw [hl] at h
            simp only [Option.some_bind, Option.pure_def, Option.some.injEq] at h
            subst h
            have hcount : countAssigned final r0._id = 0 := by
              refine assignLoop_never_assigns tt dist drivers _ r0._id sorted
                (initializeSchedules drivers) final ?_ ?_ ?_ hl
              · intro r hr hrid d hd
                have hrin : r ∈ rides :=
                  (sortRidesByStartTime_perm rides sorted hs).mem_iff.mp hr
                have : r = r0 := List.inj_on_of_nodup_map hids hrin hin hrid
                subst this
                exact hseats d hd
              · intro d hd
                exact lookupSched_init drivers d hd
              · exact countAssigned_init drivers r0._id
            intro p hp hmem
            have hflat : r0._id ∈
                ((buildAssignmentsAndCost final).assignments.map Prod.snd).flatten := by
              rw [List.mem_flatten]
              exact ⟨p.2, List.mem_map_of_mem Prod.snd hp, hmem⟩
            have hpos : 0 < ((buildAssignmentsAndCost final).assignments.map
                Prod.snd).flatten.count r0._id := List.count_pos_iff.mpr hflat
            rw [count_assignments final r0._id, hcount] at hpos
            exact Nat.lt_irrefl 0 hpos

/-! ## Local optimality of the driver selection -/

/-- Case analysis of one scan step: either the state is kept (driver
infeasible, or feasible but not strictly cheaper than the incumbent), or
the driver strictly improves and becomes the incumbent. -/
theorem findStep_cases (tt : TravelFn) (dist : DistFn) (schedules : Schedules) (ride : Ride)
    (opts : FindOptions) (acc acc2 : BestAcc) (d : Driver)
    (h : findStep tt dist schedules ride opts acc d = some acc2) :
    (acc2 = acc ∧ (feasibleFor tt schedules ride d = some false ∨
      (feasibleFor tt schedules ride d = some true ∧
       ∃ c, adjCostFor tt dist schedules ride opts.fairnessMode opts.fairnessWeight d = some c ∧
         ¬ c < acc.bestAdjustedCost))) ∨
    (feasibleFor tt schedules ride d = some true ∧
     ∃ c, adjCostFor tt dist schedules ride opts.fairnessMode opts.fairnessWeight d = some c ∧
       c < acc.bestAdjustedCost ∧
       acc2.bestDriverId = some d.driverId ∧ acc2.bestAdjustedCost = c) := by
  rw [findStep] at h
  cases hl : lookupSched schedules d.driverId with
  | none => rw [hl] at h; simp at h
  | some s =>
      rw [hl] at h
      simp only [Option.bind_eq_bind, Option.some_bind, canDriverPerformRide4] at h
      cases hf : canDriverPerformRide tt d ride s.lastRide with
      | none => rw [hf] at h; simp at h
      | some b =>
          rw [hf] at h
          simp only [Option.some_bind] at h
          cases b with
          | false =>
              simp only [Bool.false_eq_true, if_false, Option.pure_def, Option.some.injEq] at h
              exact Or.inl ⟨h.symm, Or.inl (by simp [feasibleFor, hl, hf])⟩
          | true =>
              simp only [if_true] at h
              cases hc : calculateRideCost tt dist d ride s.lastRide with
              | none => rw [hc] at h; simp at h
              | some bc =>
                  rw [hc] at h
                  simp only [Option.some_bind] at h
                  by_cases hlt : bc + (((if opts.fairnessMode then
                      computePenalty s.rides.length opts.fairnessWeight else 0) : ℚ) : QI) <
                      acc.bestAdjustedCost
                  · rw [if_pos hlt] at h
                    simp only [Option.pure_def, Option.some.injEq] at h
                    subst h
                    exact Or.inr ⟨by simp [feasibleFor, hl, hf], _,
                      by simp [adjCostFor, hl, hc], hlt, rfl, rfl⟩
                  · rw [if_neg hlt] at h
                    simp only [Option.pure_def, Option.some.injEq] at h
                    exact Or.inl ⟨h.symm, Or.inr ⟨by simp [feasibleFor, hl, hf], _,
                      by simp [adjCostFor, hl, hc], hlt⟩⟩

/-- Invariant of the whole scan: the incumbent cost only decreases, every
feasible driver seen costs at least the final incumbent cost, and when the
scan changed the state, the final incumbent is the first driver attaining
its cost, with all earlier feasible drivers strictly more expensive. -/
theorem findFold_spec (tt : TravelFn) (dist : DistFn) (schedules : Schedules) (ride : Ride)
    (opts : FindOptions) : ∀ (drivers : List Driver) (acc final : BestAcc),
    List.foldlM (findStep tt dist schedules ride opts) acc drivers = some final →
    final.bestAdjustedCost ≤ acc.bestAdjustedCost ∧
    (∀ d ∈ drivers, feasibleFor tt schedules ride d = some true →
      ∀ c, adjCostFor tt dist schedules ride opts.fairnessMode opts.fairnessWeight d = some c →
      final.bestAdjustedCost ≤ c) ∧
    (final = acc ∨ ∃ pre bd post, drivers = pre ++ bd :: post ∧
      final.bestDriverId = some bd.driverId ∧
      feasibleFor tt schedules ride bd = some true ∧
      adjCostFor tt dist schedules ride opts.fairnessMode opts.fairnessWeight bd =
        some final.bestAdjustedCost ∧
      final.bestAdjustedCost < acc.bestAdjustedCost ∧
      (∀ d ∈ pre, feasibleFor tt schedules ride d = some true →
        ∀ c, adjCostFor tt dist schedules ride opts.fairnessMode opts.fairnessWeight d = some c →
        final.bestAdjustedCost < c)) := by
  intro drivers
  induction drivers with
  | nil =>
      intro acc final h
      obtain rfl : acc = final := by simpa using h
      exact ⟨le_refl _, by simp, Or.inl rfl⟩
  | cons d rest ih =>
      intro acc final h
      rw [List.foldlM_cons] at h
      cases hstep : findStep tt dist schedules ride opts acc d with
      | none => rw [hstep] at h; simp at h
      | some acc1 =>
          rw [hstep] at h
          simp only [Option.bind_eq_bind, Option.some_bind] at h
          obtain ⟨hmono, hglobal, hdecomp⟩ := ih acc1 final h
          rcases findStep_cases tt dist schedules ride opts acc acc1 d hstep with
            ⟨rfl, hinfo⟩ | ⟨htrue, c0, hc0, hlt0, hid0, hadj0⟩
          · refine ⟨hmono, ?_, ?_⟩
            · intro q hq hfq cq hcq
              rcases List.mem_cons.mp hq with rfl | hqrest
              · rcases hinfo with hfalse | ⟨_, c1, hc1, hnot⟩
                · rw [hfq] at hfalse; cases hfalse
                · obtain rfl : c1 = cq := by rw [hc1] at hcq; exact (Option.some.injEq _ _).mp hcq
                  exact le_trans hmono (not_lt.mp hnot)
              · exact hglobal q hqrest hfq cq hcq
            · rcases hdecomp with rfl | ⟨pre, bd, post, hdr, hbid, hbfeas, hbcost, hblt, hpre⟩
              · exact Or.inl rfl
              · refine Or.inr ⟨d :: pre, bd, post, by rw [hdr, List.cons_append], hbid, hbfeas, hbcost, hblt, ?_⟩
                intro q hq hfq cq hcq
                rcases List.mem_cons.mp hq with rfl | hqpre
                · rcases hinfo with hfalse | ⟨_, c1, hc1, hnot⟩
                  · rw [hfq] at hfalse; cases hfalse
                  · obtain rfl : c1 = cq := by rw [hc1] at hcq; exact (Option.some.injEq _ _).mp hcq
                    exact lt_of_lt_of_le hblt (not_lt.mp hnot)
                · exact hpre q hqpre hfq cq hcq
          · have hmono2 : final.bestAdjustedCost ≤ acc.bestAdjustedCost :=
              le_trans (hadj0 ▸ hmono) (le_of_lt hlt0)
            refine ⟨hmono2, ?_, ?_⟩
            · intro q hq hfq cq hcq
              rcases List.mem_cons.mp hq with rfl | hqrest
              · obtain rfl : c0 = cq := by rw [hc0] at hcq; exact (Option.some.injEq _ _).mp hcq
                exact hadj0 ▸ hmono
              · exact hglobal q hqrest hfq cq hcq
            · rcases hdecomp with rfl | ⟨pre, bd, post, hdr, hbid, hbfeas, hbcost, hblt, hpre⟩
              · exact Or.inr ⟨[], d, rest, rfl, hid0, htrue, by rw [hadj0, hc0], by
                  rw [hadj0]; exact hlt0, by intro q hq; cases hq⟩
              · refine Or.inr ⟨d :: pre, bd, post, by rw [hdr, List.cons_append], hbid, hbfeas, hbcost,
                  lt_trans hblt (hadj0 ▸ hlt0), ?_⟩
                intro q hq hfq cq hcq
                rcases List.mem_cons.mp hq with rfl | hqpre
                · obtain rfl : c0 = cq := by rw [hc0] at hcq; exact (Option.some.injEq _ _).mp hcq
                  exact hadj0 ▸ hblt
                · exact hpre q hqpre hfq cq hcq

/-- Claim C1: whenever the scan selects a driver (every commitment of the
run goes through exactly this selection at the then-current schedules),
that driver is feasible, its adjusted cost (base cost plus the fairness
penalty when `fairnessMode` is on, base cost alone otherwise) is the
minimum over all feasible drivers, and every feasible driver strictly
earlier in the fixed iteration order costs strictly more — on ties the
first driver encountered wins. -/
theorem findBestDriverForRide_localOptimality (tt : TravelFn) (dist : DistFn)
    (drivers : List Driver) (schedules : Schedules) (ride : Ride) (opts : FindOptions)
    (final : BestAcc) (bid : String)
    (h : findBestDriverForRide tt dist drivers schedules ride opts = some final)
    (hb : final.bestDriverId = some bid) :
    ∃ pre bd post, drivers = pre ++ bd :: post ∧ bd.driverId = bid ∧
      feasibleFor tt schedules ride bd = some true ∧
      adjCostFor tt dist schedules ride opts.fairnessMode opts.fairnessWeight bd =
        some final.bestAdjustedCost ∧
      (∀ d ∈ drivers, feasibleFor tt schedules ride d = some true →
        ∀ c, adjCostFor tt dist schedules ride opts.fairnessMode opts.fairnessWeight d = some c →
        final.bestAdjustedCost ≤ c) ∧
      (∀ d ∈ pre, feasibleFor tt schedules ride d = some true →
        ∀ c, adjCostFor tt dist schedules ride opts.fairnessMode opts.fairnessWeight d = some c →
        final.bestAdjustedCost < c) := by
  rw [findBestDriverForRide] at h
  obtain ⟨hmono, hglobal, hdecomp⟩ := findFold_spec tt dist schedules ride opts drivers _ final h
  rcases hdecomp with rfl | ⟨pre, bd, post, hdr, hbid, hbfeas, hbcost, hblt, hpre⟩
  · cases hb
  · have : bd.driverId = bid := by
      rw [hb] at hbid
      exact ((Option.some.injEq _ _).mp hbid.symm)
    exact ⟨pre, bd, post, hdr, this, hbfeas, hbcost, hglobal, hpre⟩

/-! ## Concrete evaluations of the fixtures -/

/-- The fixture ride's times parse to `480` and `500`. -/
theorem evalParse : parseTimeToMinutes rideEx.startTime = some 480 ∧
    parseTimeToMinutes rideEx.endTime = some 500 := by
  constructor <;> decide

/-- The fixture driver can take the fixture ride from home. -/
theorem evalFeas : canDriverPerformRide ttEx driverEx rideEx none = some true := by
  rw [canDriverPerformRide_closedForm ttEx driverEx rideEx none 480 0 evalParse.1 rfl]
  rw [if_neg (by decide), if_neg (by decide), if_neg ?_]
  show ¬ ((480 : ℚ) : QI) < ((0 : ℚ) : QI) + ttEx (departCoords driverEx none) rideEx.startPoint_coords
  show ¬ ((480 : ℚ) : QI) < ((0 : ℚ) : QI) + ((5 : ℚ) : QI)
  rw [← WithTop.coe_add, WithTop.coe_lt_coe]
  norm_num

/-- The fixture base cost evaluates to `41/2`. -/
theorem evalCost : calculateRideCost ttEx distEx driverEx rideEx none =
    some ((41 / 2 : ℚ) : QI) := by
  simp only [calculateRideCost, evalParse.1, evalParse.2, Option.bind_eq_bind, Option.some_bind,
    ttEx, distEx, driverEx]
  simp only [← WithTop.coe_add, WithTop.map_coe, WithTop.coe_inj]
  norm_num

/-- The single-driver scan selects the fixture driver at adjusted cost
`41/2`. -/
theorem evalFind : findBestDriverForRide ttEx distEx [driverEx]
    (initializeSchedules [driverEx]) rideEx ⟨false, 1, ttEx⟩ =
    some ⟨some "d1", ((41 / 2 : ℚ) : QI), ((41 / 2 : ℚ) : QI)⟩ := by
  rw [findBestDriverForRide, List.foldlM_cons]
  have hl : lookupSched (initializeSchedules [driverEx]) driverEx.driverId =
      some { rides := [], baseCost := 0, penaltyCost := 0, lastRide := none } := rfl
  rw [findStep, hl]
  simp only [Option.bind_eq_bind, Option.some_bind, canDriverPerformRide4, evalFeas, evalCost,
    if_true]
  have hadj : ((41 / 2 : ℚ) : QI) + (((if false then computePenalty
      ({ rides := [], baseCost := 0, penaltyCost := 0, lastRide := none } : Schedule).rides.length
      1 else 0) : ℚ) : QI) = ((41 / 2 : ℚ) : QI) := by
    rw [if_neg (by simp), ← WithTop.coe_add]
    norm_num
  rw [hadj]
  rw [if_pos (WithTop.coe_lt_top _)]
  rfl

/-- The full fixture run commits the ride to the fixture driver and rounds
the `41/2` total to `21`. -/
theorem evalRun : assignOptimizedRides ttEx distEx [driverEx] [rideEx] ⟨false, 1, none⟩ =
    some { assignments := [("d1", ["r1"])], realTotalCost := ((21 : ℤ) : WithTop ℤ),
           totalPenalty := 0, totalCost := ((21 : ℤ) : WithTop ℤ) } := by
  rw [assignOptimizedRides]
  have hsort : sortRidesByStartTime [rideEx] = some [rideEx] := rfl
  rw [hsort]
  simp only [Option.bind_eq_bind, Option.some_bind, Option.getD_none]
  rw [assignLoop, evalFind]
  simp only [Option.bind_eq_bind, Option.some_bind]
  rw [if_pos (by decide)]
  have hassign : assignRide (initializeSchedules [driverEx]) "d1" rideEx
      ((41 / 2 : ℚ) : QI) false 1 =
      [("d1", { rides := [rideEx], baseCost := ((41 / 2 : ℚ) : QI),
                penaltyCost := 0, lastRide := some rideEx })] := by
    rw [assignRide]
    show updateSched [("d1", { rides := [], baseCost := 0, penaltyCost := 0, lastRide := none })]
      "d1" _ = _
    rw [updateSched, if_pos rfl]
    simp
  show (assignLoop ttEx distEx [driverEx] ⟨false, 1, ttEx⟩
      (assignRide (initializeSchedules [driverEx]) "d1" rideEx ((41 / 2 : ℚ) : QI) false 1)
      []).bind (fun a => (pure (buildAssignmentsAndCost a) : Option AssignResult)) = _
  rw [hassign, assignLoop]
  simp only [Option.some_bind, Option.pure_def, Option.some.injEq]
  rw [buildAssignmentsAndCost]
  have hfold : List.foldl buildStep ([], 0, 0)
      [("d1", ({ rides := [rideEx], baseCost := ((41 / 2 : ℚ) : QI),
                 penaltyCost := 0, lastRide := some rideEx } : Schedule))] =
      ([("d1", ["r1"])], (0 : QI) + ((41 / 2 : ℚ) : QI), (0 : ℚ) + 0) := by
    rw [List.foldl_cons, List.foldl_nil, buildStep]
    rw [if_neg (by decide)]
    rfl
  rw [hfold]
  simp only [AssignResult.mk.injEq]
  refine ⟨trivial, ?_, ?_, ?_⟩
  · rw [zero_add, WithTop.map_coe, jsRound]
    norm_num
  · rw [zero_add, jsRound]
    norm_num
  · rw [zero_add, zero_add, ← WithTop.coe_add, WithTop.map_coe, jsRound]
    norm_num

/-- The oversized-ride fixture run commits nothing. -/
theorem evalRunBig : assignOptimizedRides ttEx distEx [driverEx] [bigRideEx] ⟨false, 1, none⟩ =
    some { assignments := [], realTotalCost := ((0 : ℤ) : WithTop ℤ),
           totalPenalty := 0, totalCost := ((0 : ℤ) : WithTop ℤ) } := by
  rw [assignOptimizedRides]
  have hsort : sortRidesByStartTime [bigRideEx] = some [bigRideEx] := rfl
  rw [hsort]
  simp only [Option.bind_eq_bind, Option.some_bind, Option.getD_none]
  rw [assignLoop]
  rw [findBest_none_of_seatInfeasible ttEx distEx [driverEx] (initializeSchedules [driverEx])
    bigRideEx ⟨false, 1, ttEx⟩ (by intro d hd; rw [List.mem_singleton] at hd; subst hd; rfl)
    (by intro d hd; rw [List.mem_singleton] at hd; subst hd; decide)]
  simp only [Option.bind_eq_bind, Option.some_bind]
  rw [if_neg (by decide)]
  show (assignLoop ttEx distEx [driverEx] ⟨false, 1, ttEx⟩
      (initializeSchedules [driverEx]) []).bind
      (fun a => (pure (buildAssignmentsAndCost a) : Option AssignResult)) = _
  rw [assignLoop]
  simp only [Option.some_bind, Option.pure_def, Option.some.injEq]
  rw [buildAssignmentsAndCost]
  have hfold : List.foldl buildStep ([], 0, 0) (initializeSchedules [driverEx]) =
      ([], (0 : QI), (0 : ℚ)) := rfl
  rw [hfold]
  simp only [AssignResult.mk.injEq]
  refine ⟨trivial, ?_, ?_, ?_⟩
  · show WithTop.map jsRound (((0 : ℚ) : QI)) = ((0 : ℤ) : WithTop ℤ)
    rw [WithTop.map_coe, jsRound]
    norm_num
  · rw [jsRound]; norm_num
  · show WithTop.map jsRound (((0 : ℚ) : QI) + ((0 : ℚ) : QI)) = ((0 : ℤ) : WithTop ℤ)
    rw [← WithTop.coe_add, WithTop.map_coe, jsRound]
    norm_num

/-! ## Witness instances for the loop-level claims -/

/-- Witness for C1: on the one-driver fixture the selected driver is the
fixture driver, feasible, at the minimum adjusted cost `41/2`. -/
theorem findBestDriverForRide_localOptimality_witness :
    ∃ pre bd post, ([driverEx] : List Driver) = pre ++ bd :: post ∧ bd.driverId = "d1" ∧
      feasibleFor ttEx (initializeSchedules [driverEx]) rideEx bd = some true ∧
      adjCostFor ttEx distEx (initializeSchedules [driverEx]) rideEx false 1 bd =
        some (BestAcc.bestAdjustedCost ⟨some "d1", ((41 / 2 : ℚ) : QI), ((41 / 2 : ℚ) : QI)⟩) ∧
      (∀ d ∈ ([driverEx] : List Driver),
        feasibleFor ttEx (initializeSchedules [driverEx]) rideEx d = some true →
        ∀ c, adjCostFor ttEx distEx (initializeSchedules [driverEx]) rideEx false 1 d = some c →
        BestAcc.bestAdjustedCost ⟨some "d1", ((41 / 2 : ℚ) : QI), ((41 / 2 : ℚ) : QI)⟩ ≤ c) ∧
      (∀ d ∈ pre,
        feasibleFor ttEx (initializeSchedules [driverEx]) rideEx d = some true →
        ∀ c, adjCostFor ttEx distEx (initializeSchedules [driverEx]) rideEx false 1 d = some c →
        BestAcc.bestAdjustedCost ⟨some "d1", ((41 / 2 : ℚ) : QI), ((41 / 2 : ℚ) : QI)⟩ < c) :=
  findBestDriverForRide_localOptimality ttEx distEx [driverEx] (initializeSchedules [driverEx])
    rideEx ⟨false, 1, ttEx⟩ ⟨some "d1", ((41 / 2 : ℚ) : QI), ((41 / 2 : ℚ) : QI)⟩ "d1" evalFind rfl

/-- Witness for C4: on the fixture run the ride id `"r1"` occurs at most
once across all assignment lists. -/
theorem assignOptimizedRides_atMostOnce_witness :
    ((({ assignments := [("d1", ["r1"])], realTotalCost := ((21 : ℤ) : WithTop ℤ),
         totalPenalty := 0, totalCost := ((21 : ℤ) : WithTop ℤ) } :
        AssignResult).assignments.map Prod.snd).flatten.count "r1") ≤ 1 :=
  assignOptimizedRides_atMostOnce ttEx distEx [driverEx] [rideEx] ⟨false, 1, none⟩ _
    (by decide) evalRun "r1"

/-- Witness for C8: the oversized fixture ride is skipped without error
and absent from the (empty) output assignments. -/
theorem assignOptimizedRides_noFeasibleDriver_witness :
    (∀ (schedules : Schedules) (fopts : FindOptions) (rest : List Ride),
      (∀ d ∈ ([driverEx] : List Driver), (lookupSched schedules d.driverId).isSome = true) →
      findBestDriverForRide ttEx distEx [driverEx] schedules bigRideEx fopts =
        some ⟨none, ⊤, 0⟩ ∧
      assignLoop ttEx distEx [driverEx] fopts schedules (bigRideEx :: rest) =
        assignLoop ttEx distEx [driverEx] fopts schedules rest) ∧
    ∀ p ∈ ({ assignments := [], realTotalCost := ((0 : ℤ) : WithTop ℤ),
             totalPenalty := 0, totalCost := ((0 : ℤ) : WithTop ℤ) } :
           AssignResult).assignments, bigRideEx._id ∉ p.2 :=
  assignOptimizedRides_noFeasibleDriver ttEx distEx [driverEx] [bigRideEx] ⟨false, 1, none⟩
    bigRideEx _ (List.mem_singleton.mpr rfl) (by decide)
    (by intro d hd; rw [List.mem_singleton] at hd; subst hd; decide) evalRunBig

end AssignRides
